import Mathlib

/-!
Verification of the texxteditor repository.

Shallow embedding of the parts of the program the claims reason about:

* `text/handler.py` — the canvas text-block editor (`wrap_text_to_width`,
  `find_wrapped_position`, `find_actual_index`, `add_character`,
  `handle_backspace`, `delete_selection`, `move_cursor`,
  `create_new_text_block`, `update_cursor_after_text_change`);
* `text/search.py` — find/replace over the Tk text widget;
* `file/operations.py` — saving the widget buffer to disk;
* `config/settings.py` — the JSON settings store;
* `audio/recorder.py` and `audio/transcription.py` — the recording
  buffer lifecycle and the single-POST transcription call.

Python strings are modelled as `List Char`; Python `int` indices that the
code keeps non-negative are modelled as `Nat` (each place where Nat
subtraction could differ from Python is noted at the definition).
Font metrics (`font_obj.measure`, `metrics("linespace")`) are opaque
parameters; canvas drawing calls are modelled only through the state they
touch.
-/

set_option autoImplicit false

namespace Texxteditor

/-! ### Python `str.split(sep)` on a single separator character

`splitChar c l` mirrors Python `l.split(c)` for a one-character separator:
`"".split(c) == [""]`, and every separator occurrence produces a boundary,
so the result is always non-empty. -/

def splitChar (c : Char) : List Char → List (List Char)
  | [] => [[]]
  | x :: xs =>
    let s := splitChar c xs
    -- `s` is never empty, so prepending `x` to its head matches Python exactly
    if x = c then [] :: s else (x :: s.headD []) :: s.tail

theorem splitChar_ne_nil (c : Char) (l : List Char) : splitChar c l ≠ [] := by
  cases l with
  | nil => simp [splitChar]
  | cons x xs => simp only [splitChar]; split <;> simp

/-- Total length of a list of lines (no separators counted). -/
def sumLens (ls : List (List Char)) : Nat := (ls.map List.length).sum

@[simp] theorem sumLens_nil : sumLens [] = 0 := rfl

@[simp] theorem sumLens_cons (l : List Char) (ls : List (List Char)) :
    sumLens (l :: ls) = l.length + sumLens ls := rfl

theorem sumLens_append (a b : List (List Char)) :
    sumLens (a ++ b) = sumLens a + sumLens b := by
  induction a with
  | nil => simp
  | cons l ls ih => simp [sumLens_cons, ih]; omega

/-- Splitting then re-joining with one separator per boundary is
length-preserving: `sum of piece lengths + number of pieces = |l| + 1`. -/
theorem splitChar_sum (c : Char) (l : List Char) :
    sumLens (splitChar c l) + (splitChar c l).length = l.length + 1 := by
  induction l with
  | nil => simp [splitChar, sumLens]
  | cons x xs ih =>
    simp only [splitChar]
    cases h : splitChar c xs with
    | nil => exact absurd h (splitChar_ne_nil c xs)
    | cons y ys =>
      rw [h] at ih
      split
      · simp only [sumLens_cons, List.length_cons, List.length_nil] at ih ⊢
        omega
      · simp only [List.headD_cons, List.tail_cons, sumLens_cons, List.length_cons] at ih ⊢
        omega

/-- No piece of `splitChar c l` contains the separator `c`. -/
theorem splitChar_not_mem (c : Char) (l : List Char) :
    ∀ w ∈ splitChar c l, c ∉ w := by
  induction l with
  | nil => simp [splitChar]
  | cons x xs ih =>
    simp only [splitChar]
    cases h : splitChar c xs with
    | nil => exact absurd h (splitChar_ne_nil c xs)
    | cons y ys =>
      rw [h] at ih
      split
      · rename_i hx
        intro w hw
        simp only [List.mem_cons] at hw
        rcases hw with h1 | h1 | h1
        · simp [h1]
        · exact h1 ▸ ih y (by simp)
        · exact ih w (by simp [h1])
      · rename_i hx
        intro w hw
        simp only [List.headD_cons, List.tail_cons, List.mem_cons] at hw
        rcases hw with h1 | h1
        · subst h1
          intro hmem
          rcases List.mem_cons.mp hmem with h2 | h2
          · exact hx h2.symm
          · exact ih y (by simp) h2
        · exact ih w (by simp [h1])

/-! ### `TextHandler.wrap_text_to_width` (`text/handler.py`, lines 256-280)

The greedy word-wrap loop over one paragraph: `cur` is `current_line`,
`ws` the remaining words.  `measure` stands for `font_obj.measure`. -/

def greedyWrap (measure : List Char → Nat) (width : Nat) :
    List Char → List (List Char) → List (List Char)
  | cur, [] => [cur]
  | cur, w :: ws =>
    let test_line := cur ++ ' ' :: w
    if measure test_line ≤ width then greedyWrap measure width test_line ws
    else cur :: greedyWrap measure width w ws

/-- `TextHandler.wrap_text_to_width(text, width, font_obj)`: split into
paragraphs on newline, then greedily pack space-separated words. -/
def wrap_text_to_width (text : List Char) (width : Nat)
    (measure : List Char → Nat) : List (List Char) :=
  if text = [] then [[]]
  else
    (splitChar '\n' text).flatMap fun paragraph =>
      if paragraph = [] then [[]]
      else
        match splitChar ' ' paragraph with
        | [] => []  -- unreachable: splitChar is never []
        | w :: ws => greedyWrap measure width w ws

theorem greedyWrap_ne_nil (measure : List Char → Nat) (width : Nat)
    (cur : List Char) (ws : List (List Char)) :
    greedyWrap measure width cur ws ≠ [] := by
  cases ws with
  | nil => simp [greedyWrap]
  | cons w ws => simp only [greedyWrap]; split <;> simp [greedyWrap_ne_nil]

theorem greedyWrap_sum (measure : List Char → Nat) (width : Nat)
    (cur : List Char) (ws : List (List Char)) :
    sumLens (greedyWrap measure width cur ws) +
      (greedyWrap measure width cur ws).length =
    cur.length + sumLens ws + ws.length + 1 := by
  induction ws generalizing cur with
  | nil => simp [greedyWrap, sumLens]
  | cons w ws ih =>
    simp only [greedyWrap]
    split
    · have h1 := ih (cur ++ ' ' :: w)
      simp only [List.length_append, List.length_cons, sumLens_cons] at h1 ⊢
      omega
    · have h1 := ih w
      simp only [sumLens_cons, List.length_cons] at h1 ⊢
      omega

theorem greedyWrap_good (measure : List Char → Nat) (width : Nat)
    (cur : List Char) (ws : List (List Char))
    (hcur : measure cur ≤ width ∨ ' ' ∉ cur)
    (hws : ∀ w ∈ ws, ' ' ∉ w) :
    ∀ l ∈ greedyWrap measure width cur ws, measure l ≤ width ∨ ' ' ∉ l := by
  induction ws generalizing cur with
  | nil =>
    intro l hl
    simp only [greedyWrap, List.mem_singleton] at hl
    exact hl ▸ hcur
  | cons w ws ih =>
    simp only [greedyWrap]
    split
    · rename_i hfit
      exact ih _ (Or.inl hfit) (fun w' hw' => hws w' (by simp [hw']))
    · intro l hl
      rcases List.mem_cons.mp hl with h1 | h1
      · exact h1 ▸ hcur
      · exact ih w (Or.inr (hws w (by simp)))
          (fun w' hw' => hws w' (by simp [hw'])) l h1

/-- One paragraph's worth of wrapped lines. -/
theorem wrap_paragraph_sum (measure : List Char → Nat) (width : Nat)
    (p : List Char) :
    sumLens (if p = [] then [[]]
             else match splitChar ' ' p with
                  | [] => []
                  | w :: ws => greedyWrap measure width w ws) +
      (if p = [] then [[]]
       else match splitChar ' ' p with
            | [] => []
            | w :: ws => greedyWrap measure width w ws).length
    = p.length + 1 := by
  split
  · rename_i hp; simp [hp, sumLens]
  · cases h : splitChar ' ' p with
    | nil => exact absurd h (splitChar_ne_nil ' ' p)
    | cons w ws =>
      have hs := splitChar_sum ' ' p
      rw [h] at hs
      simp only [sumLens_cons, List.length_cons] at hs
      rw [greedyWrap_sum]
      omega

theorem sumLens_flatMap_lines (measure : List Char → Nat) (width : Nat)
    (ps : List (List Char)) :
    sumLens (ps.flatMap fun paragraph =>
        if paragraph = [] then [[]]
        else match splitChar ' ' paragraph with
             | [] => []
             | w :: ws => greedyWrap measure width w ws) +
      (ps.flatMap fun paragraph =>
        if paragraph = [] then [[]]
        else match splitChar ' ' paragraph with
             | [] => []
             | w :: ws => greedyWrap measure width w ws).length
    = sumLens ps + ps.length := by
  induction ps with
  | nil => simp [sumLens]
  | cons p ps ih =>
    simp only [List.flatMap_cons, sumLens_append, List.length_append,
      sumLens_cons, List.length_cons]
    have hp := wrap_paragraph_sum measure width p
    omega

/-- The wrapped lines of any text carry all its characters, with one
separator character (space or newline) consumed per line boundary. -/
theorem wrap_sum (text : List Char) (width : Nat)
    (measure : List Char → Nat) :
    sumLens (wrap_text_to_width text width measure) +
      (wrap_text_to_width text width measure).length = text.length + 1 := by
  unfold wrap_text_to_width
  split
  · rename_i h; simp [h, sumLens]
  · rw [sumLens_flatMap_lines]
    exact splitChar_sum '\n' text

theorem wrap_ne_nil (text : List Char) (width : Nat)
    (measure : List Char → Nat) :
    wrap_text_to_width text width measure ≠ [] := by
  unfold wrap_text_to_width
  split
  · simp
  · rename_i ht
    cases h : splitChar '\n' text with
    | nil => exact absurd h (splitChar_ne_nil '\n' text)
    | cons p ps =>
      simp only [List.flatMap_cons, ← List.length_pos, List.length_append]
      have : (if p = [] then [[]]
              else match splitChar ' ' p with
                   | [] => []
                   | w :: ws => greedyWrap measure width w ws) ≠ [] := by
        split
        · simp
        · cases hq : splitChar ' ' p with
          | nil => exact absurd hq (splitChar_ne_nil ' ' p)
          | cons w ws => exact greedyWrap_ne_nil measure width w ws
      have := List.length_pos.mpr this
      omega

theorem wrap_length_pos (text : List Char) (width : Nat)
    (measure : List Char → Nat) :
    0 < (wrap_text_to_width text width measure).length :=
  List.length_pos.mpr (wrap_ne_nil text width measure)

theorem wrap_good (text : List Char) (width : Nat)
    (measure : List Char → Nat) :
    ∀ l ∈ wrap_text_to_width text width measure,
      measure l ≤ width ∨ ' ' ∉ l := by
  unfold wrap_text_to_width
  split
  · intro l hl
    simp only [List.mem_singleton] at hl
    subst hl
    exact Or.inr (by simp)
  · intro l hl
    rw [List.mem_flatMap] at hl
    obtain ⟨p, _, hl⟩ := hl
    revert hl
    split
    · intro hl
      simp only [List.mem_singleton] at hl
      subst hl
      exact Or.inr (by simp)
    · cases hq : splitChar ' ' p with
      | nil => exact absurd hq (splitChar_ne_nil ' ' p)
      | cons w ws =>
        intro hl
        have hpieces := splitChar_not_mem ' ' p
        rw [hq] at hpieces
        exact greedyWrap_good measure width w ws
          (Or.inr (hpieces w (by simp)))
          (fun w' hw' => hpieces w' (by simp [hw'])) l hl

/-- C4: for every text, positive width and text-measure function,
`wrap_text_to_width` returns a non-empty list of lines; each line measures
at most `width` or contains no space; and the line lengths plus one
separator per line break add up exactly to the input length. -/
theorem wrap_text_to_width_props (measure : List Char → Nat) (width : Nat)
    (text : List Char) (hw : 0 < width) :
    wrap_text_to_width text width measure ≠ [] ∧
    (∀ l ∈ wrap_text_to_width text width measure,
        measure l ≤ width ∨ ' ' ∉ l) ∧
    sumLens (wrap_text_to_width text width measure) +
      ((wrap_text_to_width text width measure).length - 1) = text.length := by
  refine ⟨wrap_ne_nil text width measure, wrap_good text width measure, ?_⟩
  have h1 := wrap_sum text width measure
  have h2 := wrap_length_pos text width measure
  omega

/-- Witness for C4 at `text = "ab cd"`, `width = 25`,
`measure = 10 · length`. -/
theorem wrap_text_to_width_props_witness :
    0 < 25 ∧
    (wrap_text_to_width ['a', 'b', ' ', 'c', 'd'] 25
        (fun l => 10 * l.length) ≠ [] ∧
      (∀ l ∈ wrap_text_to_width ['a', 'b', ' ', 'c', 'd'] 25
          (fun l => 10 * l.length),
          10 * l.length ≤ 25 ∨ ' ' ∉ l) ∧
      sumLens (wrap_text_to_width ['a', 'b', ' ', 'c', 'd'] 25
          (fun l => 10 * l.length)) +
        ((wrap_text_to_width ['a', 'b', ' ', 'c', 'd'] 25
            (fun l => 10 * l.length)).length - 1) =
        (['a', 'b', ' ', 'c', 'd'] : List Char).length) :=
  ⟨by decide,
   wrap_text_to_width_props (fun l => 10 * l.length) 25
     ['a', 'b', ' ', 'c', 'd'] (by decide)⟩

/-! ### `find_wrapped_position` / `find_actual_index`
(`text/handler.py`, lines 282-309) -/

/-- The loop of `find_wrapped_position`: walk the wrapped lines keeping
`line_num` and `current_idx`; `none` when the loop falls through.
The Python loop adds 1 to `current_idx` after every line except the last
(`line_num < len(wrapped_lines) - 1`), i.e. exactly when `rest ≠ []`. -/
def fwpGo (global_index : Nat) :
    List (List Char) → Nat → Nat → Option (Nat × Nat)
  | [], _, _ => none
  | line :: rest, line_num, current_idx =>
    let line_end_idx := current_idx + line.length
    -- `global_index - current_idx` never truncates: the branch is only
    -- reached with `current_idx ≤ global_index` (see `fwpGo_spec`)
    if global_index ≤ line_end_idx then
      some (line_num, global_index - current_idx)
    else
      fwpGo global_index rest (line_num + 1)
        (if rest = [] then line_end_idx else line_end_idx + 1)

/-- `TextHandler.find_wrapped_position(wrapped_lines, global_index)`.
The fall-through return is `(len(wrapped_lines) - 1, len(wrapped_lines[-1]))`
(on the empty list Python yields `(-1, 0)`, floored to `(0, 0)` by `Nat`;
every caller passes the non-empty output of `wrap_text_to_width`). -/
def find_wrapped_position (wrapped_lines : List (List Char))
    (global_index : Nat) : Nat × Nat :=
  match fwpGo global_index wrapped_lines 0 0 with
  | some p => p
  | none => (wrapped_lines.length - 1, (wrapped_lines.getLastD []).length)

/-- `TextHandler.find_actual_index(wrapped_lines, line_index, char_index)`:
sum the lengths of the lines before `line_index`, adding a separator
character only for `i < line_index - 1`, then add `char_index`.
Out-of-range lines read as `[]` (Python would raise `IndexError`; all
claims use in-range lines). -/
def find_actual_index (wrapped_lines : List (List Char))
    (line_index : Nat) (char_index : Nat) : Nat :=
  ((List.range line_index).foldl
    (fun char_count i =>
      char_count + (wrapped_lines.getD i []).length +
        (if i < line_index - 1 then 1 else 0)) 0) + char_index

theorem foldl_add_add_map (f g : Nat → Nat) (l : List Nat) (acc : Nat) :
    l.foldl (fun a i => a + f i + g i) acc =
      acc + (l.map fun i => f i + g i).sum := by
  induction l generalizing acc with
  | nil => simp
  | cons x xs ih => simp [List.foldl_cons, ih]; omega

theorem range_map_len_sum (ls : List (List Char)) (M : Nat)
    (hM : M ≤ ls.length) :
    ((List.range M).map (fun i => (ls.getD i []).length)).sum =
      sumLens (ls.take M) := by
  induction M with
  | zero => simp [sumLens]
  | succ m ih =>
    rw [List.range_succ, List.map_append, List.sum_append,
      ih (Nat.le_of_succ_le hM)]
    have hm : m < ls.length := hM
    rw [List.take_succ, sumLens_append]
    simp only [List.map_cons, List.map_nil, List.sum_cons, List.sum_nil]
    rw [List.getD_eq_getElem _ _ hm]
    simp [sumLens, List.getElem?_eq_getElem hm]

theorem range_map_ite_sum (k : Nat) : ∀ (n : Nat),
    ((List.range n).map (fun i => if i < k then 1 else 0)).sum = min n k := by
  intro n
  induction n with
  | zero => simp
  | succ m ih =>
    rw [List.range_succ, List.map_append, List.sum_append, ih]
    simp only [List.map_cons, List.map_nil, List.sum_cons, List.sum_nil]
    split <;> omega

/-- Closed form of `find_actual_index` for in-range line indices: the
loop counts `line_index - 1` separators (one fewer than the number of
line breaks crossed). -/
theorem find_actual_index_closed (ls : List (List Char))
    (L c : Nat) (hL : L ≤ ls.length) :
    find_actual_index ls L c = sumLens (ls.take L) + (L - 1) + c := by
  unfold find_actual_index
  rw [foldl_add_add_map (fun i => (ls.getD i []).length)
    (fun i => if i < L - 1 then 1 else 0) (List.range L) 0]
  have h2 : ((List.range L).map
      (fun i => (ls.getD i []).length + (if i < L - 1 then 1 else 0))).sum
      = ((List.range L).map (fun i => (ls.getD i []).length)).sum
        + ((List.range L).map (fun i => if i < L - 1 then 1 else 0)).sum := by
    induction (List.range L) with
    | nil => simp
    | cons x xs ih => simp only [List.map_cons, List.sum_cons, ih]; omega
  rw [h2, range_map_len_sum ls L hL, range_map_ite_sum]
  omega

/-- The loop of `find_wrapped_position` always returns inside the loop when
`global_index` is at most the joined length of the lines, and the returned
`(line, column)` satisfies `prefix-lengths + line (separators) + column =
global_index`. -/
theorem fwpGo_spec (ls : List (List Char)) :
    ∀ (n idx g : Nat), ls ≠ [] → idx ≤ g →
      g ≤ idx + sumLens ls + (ls.length - 1) →
      ∃ L c, fwpGo g ls n idx = some (n + L, c) ∧ L < ls.length ∧
        c ≤ (ls.getD L []).length ∧
        idx + sumLens (ls.take L) + L + c = g := by
  induction ls with
  | nil => intro n idx g h; exact absurd rfl h
  | cons line rest ih =>
    intro n idx g _ hidx hg
    simp only [fwpGo]
    by_cases hle : g ≤ idx + line.length
    · refine ⟨0, g - idx, ?_, ?_, ?_, ?_⟩
      · simp [hle]
      · simp
      · simp only [List.getD_cons_zero]; omega
      · simp [sumLens]; omega
    · cases rest with
      | nil =>
        exfalso
        simp only [sumLens_cons, sumLens_nil, List.length_cons,
          List.length_nil] at hg
        omega
      | cons t ts =>
        have hrest : (t :: ts : List (List Char)) ≠ [] := by simp
        have hidx' : idx + line.length + 1 ≤ g := by omega
        have hg' : g ≤ (idx + line.length + 1) + sumLens (t :: ts) +
            ((t :: ts).length - 1) := by
          simp only [sumLens_cons, List.length_cons] at hg ⊢
          omega
        obtain ⟨L, c, heq, hL, hc, hsum⟩ :=
          ih (n + 1) (idx + line.length + 1) g hrest hidx' hg'
        refine ⟨L + 1, c, ?_, ?_, ?_, ?_⟩
        · simp only [if_neg hle, if_neg (by simp : ¬(t :: ts : List (List Char)) = [])]
          have harith : n + (L + 1) = n + 1 + L := by omega
          rw [harith]
          exact heq
        · simpa [Nat.succ_lt_succ_iff] using hL
        · simpa using hc
        · simp only [List.take_succ_cons, sumLens_cons] at hsum ⊢
          omega

theorem find_wrapped_position_spec (ls : List (List Char)) (g : Nat)
    (h1 : ls ≠ []) (h2 : g ≤ sumLens ls + (ls.length - 1)) :
    (find_wrapped_position ls g).1 < ls.length ∧
    (find_wrapped_position ls g).2 ≤
      (ls.getD (find_wrapped_position ls g).1 []).length ∧
    sumLens (ls.take (find_wrapped_position ls g).1) +
      (find_wrapped_position ls g).1 + (find_wrapped_position ls g).2 = g := by
  obtain ⟨L, c, heq, hL, hc, hsum⟩ :=
    fwpGo_spec ls 0 0 g h1 (Nat.zero_le g) (by omega)
  unfold find_wrapped_position
  rw [heq]
  simp only [Nat.zero_add] at *
  exact ⟨hL, hc, by omega⟩

/-- `find_actual_index` never exceeds the joined length of the lines. -/
theorem find_actual_index_le (ls : List (List Char)) (L c : Nat)
    (hL : L < ls.length) (hc : c ≤ (ls.getD L []).length) :
    find_actual_index ls L c ≤ sumLens ls + (ls.length - 1) := by
  rw [find_actual_index_closed ls L c (Nat.le_of_lt hL)]
  have hsplit : sumLens (ls.take (L + 1)) ≤ sumLens ls := by
    conv_rhs => rw [← List.take_append_drop (L + 1) ls]
    rw [sumLens_append]
    omega
  have hgl : sumLens (ls.take (L + 1)) =
      sumLens (ls.take L) + (ls.getD L []).length := by
    rw [List.take_succ, sumLens_append, List.getD_eq_getElem _ _ hL]
    simp [sumLens, List.getElem?_eq_getElem hL]
  omega

/-- C9 (amended): starting from a valid global index `g`,
`find_wrapped_position` followed by `find_actual_index` returns `g` when
the position falls on wrapped line 0, and `g - 1` otherwise —
`find_actual_index` counts one separator fewer than
`find_wrapped_position` skipped. -/
theorem find_wrapped_round_trip (text : List Char) (width : Nat)
    (measure : List Char → Nat) (g : Nat)
    (hw : 0 < width) (hg : g ≤ text.length) :
    find_actual_index (wrap_text_to_width text width measure)
      (find_wrapped_position (wrap_text_to_width text width measure) g).1
      (find_wrapped_position (wrap_text_to_width text width measure) g).2
    = if (find_wrapped_position (wrap_text_to_width text width measure) g).1 = 0
      then g else g - 1 := by
  set ls := wrap_text_to_width text width measure with hls
  have hne : ls ≠ [] := wrap_ne_nil text width measure
  have hlen : 0 < ls.length := wrap_length_pos text width measure
  have htot : sumLens ls + (ls.length - 1) = text.length := by
    have := wrap_sum text width measure
    rw [← hls] at this
    omega
  obtain ⟨hL, hc, hsum⟩ := find_wrapped_position_spec ls g hne (by omega)
  rw [find_actual_index_closed ls _ _ (Nat.le_of_lt hL)]
  split
  · rename_i h0
    rw [h0] at hsum ⊢
    simp only [List.take_zero, sumLens_nil] at hsum ⊢
    omega
  · rename_i h0
    omega

/-- C9 (original claim, refuted): the round trip is not the identity.
With `measure = 10 · length` and `width = 25`, `"ab cd"` wraps to
`["ab", "cd"]`; global index 3 (the `c`) maps to wrapped position
`(1, 0)`, which `find_actual_index` maps back to 2, not 3. -/
theorem find_wrapped_round_trip_counterexample :
    wrap_text_to_width ['a', 'b', ' ', 'c', 'd'] 25 (fun l => 10 * l.length)
      = [['a', 'b'], ['c', 'd']] ∧
    find_wrapped_position [['a', 'b'], ['c', 'd']] 3 = (1, 0) ∧
    find_actual_index [['a', 'b'], ['c', 'd']] 1 0 ≠ 3 := by decide

/-- Witness for C9 (amended) at the same concrete input, line ≠ 0. -/
theorem find_wrapped_round_trip_witness :
    0 < 25 ∧ 3 ≤ (['a', 'b', ' ', 'c', 'd'] : List Char).length ∧
    (find_actual_index
        (wrap_text_to_width ['a', 'b', ' ', 'c', 'd'] 25 (fun l => 10 * l.length))
        (find_wrapped_position
          (wrap_text_to_width ['a', 'b', ' ', 'c', 'd'] 25 (fun l => 10 * l.length)) 3).1
        (find_wrapped_position
          (wrap_text_to_width ['a', 'b', ' ', 'c', 'd'] 25 (fun l => 10 * l.length)) 3).2
      = if (find_wrapped_position
            (wrap_text_to_width ['a', 'b', ' ', 'c', 'd'] 25 (fun l => 10 * l.length)) 3).1 = 0
        then 3 else 3 - 1) :=
  ⟨by decide, by decide,
   find_wrapped_round_trip ['a', 'b', ' ', 'c', 'd'] 25
     (fun l => 10 * l.length) 3 (by decide) (by decide)⟩

/-! ### `TextHandler` mutable state (`text/handler.py`)

The canvas itself is modelled only through the state it contributes:
`canvas.create_text` allocates a fresh item id (`canvas_next_id`), and
`canvas.itemconfig`/`coords` calls have no effect outside the widget.
`font_obj.measure` and `font_obj.metrics("linespace")` are the opaque
parameters `measure` and `linespace`. -/

structure TextBlock where
  id : Nat
  x : Int
  y : Int
  text : List Char
  deriving Repr, DecidableEq

structure TextHandlerState where
  block_width : Nat
  line_wrap : Bool
  text_blocks : List TextBlock
  current_text_item : Option Nat
  current_text : List Char
  current_block_start_x : Int
  current_block_start_y : Int
  current_line_y : Int
  insertion_index : Nat
  selection_start_index : Option Nat
  selection_end_index : Option Nat
  cursor_x : Int
  cursor_y : Int
  canvas_next_id : Nat
  deriving Repr, DecidableEq

/-- The `for block in self.text_blocks: if block['id'] == ...: block['text'] = ...; break`
pattern: update the first block whose id matches. -/
def updateBlockText : List TextBlock → Nat → List Char → List TextBlock
  | [], _, _ => []
  | b :: bs, i, t =>
    if b.id = i then { b with text := t } :: bs
    else b :: updateBlockText bs i t

/-- `TextHandler.create_new_text_block(x, y)` (lines 64-85). -/
def create_new_text_block (x y : Int) (s : TextHandlerState) :
    TextHandlerState × (Int × Int) :=
  let new_id := s.canvas_next_id
  ({ s with
      current_block_start_x := x
      current_block_start_y := y
      current_line_y := y
      current_text := []
      insertion_index := 0
      selection_start_index := none
      selection_end_index := none
      current_text_item := some new_id
      canvas_next_id := new_id + 1
      text_blocks := s.text_blocks ++ [⟨new_id, x, y, []⟩] },
   (x, y))

/-- `TextHandler.add_character(char)` (lines 87-123).  `char` is a Python
string, possibly longer than one character (`insertion_index += len(char)`). -/
def add_character (measure : List Char → Nat) (linespace : Nat)
    (char : List Char) (s : TextHandlerState) :
    TextHandlerState × (Int × Int) :=
  -- create a new text block if none is active
  let s1 := if s.current_text_item = none
            then (create_new_text_block s.cursor_x s.cursor_y s).1 else s
  let text' := s1.current_text.take s1.insertion_index ++ char ++
               s1.current_text.drop s1.insertion_index
  let idx' := s1.insertion_index + char.length
  let wrapped_lines := wrap_text_to_width (text'.take idx') s1.block_width measure
  let line_number := wrapped_lines.length - 1
  let last_line := wrapped_lines.getLastD []
  let new_x := s1.current_block_start_x + (measure last_line : Int)
  let new_y := s1.current_block_start_y + ((line_number * linespace : Nat) : Int)
  ({ s1 with
      current_text := text'
      insertion_index := idx'
      current_line_y := new_y
      text_blocks := updateBlockText s1.text_blocks
        (s1.current_text_item.getD 0) text' },
   (new_x, new_y))

/-- `TextHandler.handle_backspace()` (lines 132-172).  The Python guard
`insertion_index <= 0` is `insertion_index = 0` on `Nat`; the code never
drives the index negative. -/
def handle_backspace (measure : List Char → Nat) (linespace : Nat)
    (s : TextHandlerState) : TextHandlerState × Option (Int × Int) :=
  if s.selection_start_index ≠ none ∧ s.selection_end_index ≠ none then
    (s, none)
  else if s.insertion_index = 0 ∨ s.current_text_item = none then
    (s, none)
  else
    let text' := s.current_text.take (s.insertion_index - 1) ++
                 s.current_text.drop s.insertion_index
    let idx' := s.insertion_index - 1
    let wrapped_lines := wrap_text_to_width (text'.take idx') s.block_width measure
    let line_number := wrapped_lines.length - 1
    let last_line := wrapped_lines.getLastD []
    let new_x := s.current_block_start_x + (measure last_line : Int)
    let new_y := s.current_block_start_y + ((line_number * linespace : Nat) : Int)
    ({ s with
        current_text := text'
        insertion_index := idx'
        current_line_y := new_y
        text_blocks := updateBlockText s.text_blocks
          (s.current_text_item.getD 0) text' },
     some (new_x, new_y))

/-- `TextHandler.update_cursor_after_text_change()` (lines 193-202):
recompute the cursor pixel position from the hard newlines before the
insertion point. -/
def update_cursor_after_text_change (measure : List Char → Nat)
    (linespace : Nat) (s : TextHandlerState) :
    TextHandlerState × (Int × Int) :=
  let lines := splitChar '\n' (s.current_text.take s.insertion_index)
  let line_number := lines.length - 1
  let last_line := lines.getLastD []
  let new_x := s.current_block_start_x + (measure last_line : Int)
  let new_y := s.current_block_start_y + ((line_number * linespace : Nat) : Int)
  ({ s with current_line_y := new_y }, (new_x, new_y))

/-- `TextHandler.delete_selection(start_idx, end_idx)` (lines 174-191). -/
def delete_selection (measure : List Char → Nat) (linespace : Nat)
    (start_idx end_idx : Option Nat) (s : TextHandlerState) :
    TextHandlerState × Option (Int × Int) :=
  if start_idx = none ∨ end_idx = none ∨ s.current_text_item = none then
    (s, none)
  else
    let a := start_idx.getD 0
    let b := end_idx.getD 0
    let start := min a b
    let stop := max a b
    let text' := s.current_text.take start ++ s.current_text.drop stop
    let s1 := { s with
        current_text := text'
        insertion_index := start
        text_blocks := updateBlockText s.text_blocks
          (s.current_text_item.getD 0) text' }
    let r := update_cursor_after_text_change measure linespace s1
    (r.1, some r.2)

/-- `TextHandler.move_cursor(direction, shift_pressed)` (lines 204-254).
The selection variables are locals returned to the caller; only
`insertion_index` and `current_line_y` change in the handler's state. -/
def move_cursor (measure : List Char → Nat) (linespace : Nat)
    (direction : String) (shift_pressed : Bool) (s : TextHandlerState) :
    TextHandlerState × Option (Int × Int × Option Nat × Option Nat) :=
  if s.current_text_item = none then (s, none)
  else
    let wrapped_lines := wrap_text_to_width s.current_text s.block_width measure
    let pos := find_wrapped_position wrapped_lines s.insertion_index
    let line_num := pos.1
    let char_pos := pos.2
    let sel_start :=
      if shift_pressed ∧ s.selection_start_index = none
      then some s.insertion_index else s.selection_start_index
    let idx' :=
      if direction = "Left" then
        if s.insertion_index > 0 then s.insertion_index - 1
        else s.insertion_index
      else if direction = "Right" then
        if s.insertion_index < s.current_text.length then s.insertion_index + 1
        else s.insertion_index
      else if direction = "Up" then
        if line_num > 0 then
          let prev_line := wrapped_lines.getD (line_num - 1) []
          find_actual_index wrapped_lines (line_num - 1)
            (min char_pos prev_line.length)
        else s.insertion_index
      else if direction = "Down" then
        if line_num < wrapped_lines.length - 1 then
          let next_line := wrapped_lines.getD (line_num + 1) []
          find_actual_index wrapped_lines (line_num + 1)
            (min char_pos next_line.length)
        else s.insertion_index
      else s.insertion_index
    let sels :=
      if shift_pressed then (sel_start, some idx')
      else if sel_start ≠ none then (none, none)
      else (sel_start, s.selection_end_index)
    let s1 := { s with insertion_index := idx' }
    let r := update_cursor_after_text_change measure linespace s1
    (r.1, some (r.2.1, r.2.2, sels.1, sels.2))

theorem updateBlockText_append (pre post : List TextBlock) (b : TextBlock)
    (it : Nat) (t : List Char) (hb : b.id = it)
    (hpre : ∀ b' ∈ pre, b'.id ≠ it) :
    updateBlockText (pre ++ b :: post) it t =
      pre ++ { b with text := t } :: post := by
  induction pre with
  | nil => simp [updateBlockText, hb]
  | cons p ps ih =>
    simp only [List.cons_append, updateBlockText, List.append_eq]
    rw [if_neg (hpre p (by simp))]
    rw [ih (fun b' hb' => hpre b' (by simp [hb']))]

/-- C7: with an active text block, `add_character(char)` splices `char`
into `current_text` at the insertion point, advances `insertion_index` by
`len(char)`, and rewrites the text of the (first) matching entry of
`text_blocks`, leaving every other block untouched. -/
theorem add_character_inserts (measure : List Char → Nat) (linespace : Nat)
    (char : List Char) (s : TextHandlerState) (it : Nat)
    (pre post : List TextBlock) (b : TextBlock)
    (hit : s.current_text_item = some it)
    (hi : s.insertion_index ≤ s.current_text.length)
    (hblocks : s.text_blocks = pre ++ b :: post)
    (hb : b.id = it) (hpre : ∀ b' ∈ pre, b'.id ≠ it) :
    (add_character measure linespace char s).1.current_text =
        s.current_text.take s.insertion_index ++ char ++
        s.current_text.drop s.insertion_index ∧
    (add_character measure linespace char s).1.insertion_index =
        s.insertion_index + char.length ∧
    (add_character measure linespace char s).1.text_blocks =
        pre ++ { b with text := s.current_text.take s.insertion_index ++
          char ++ s.current_text.drop s.insertion_index } :: post := by
  have hnone : ¬s.current_text_item = none := by simp [hit]
  refine ⟨?_, ?_, ?_⟩
  · simp [add_character, if_neg hnone]
  · simp [add_character, if_neg hnone]
  · simp only [add_character, hit, if_neg (Option.some_ne_none it),
      Option.getD_some, hblocks]
    exact updateBlockText_append pre post b it _ hb hpre

/-- Witness for C7: state with one block `"ab cd"`, cursor at 2,
inserting `"X"`. -/
theorem add_character_inserts_witness :
    (fun s0 : TextHandlerState =>
      (add_character (fun l => l.length) 1 ['X'] s0).1.current_text =
          (['a', 'b', ' ', 'c', 'd'] : List Char).take 2 ++ ['X'] ++
          (['a', 'b', ' ', 'c', 'd'] : List Char).drop 2 ∧
      (add_character (fun l => l.length) 1 ['X'] s0).1.insertion_index =
          2 + (['X'] : List Char).length ∧
      (add_character (fun l => l.length) 1 ['X'] s0).1.text_blocks =
          [] ++ ({ id := 7, x := 20, y := 20,
                   text := (['a', 'b', ' ', 'c', 'd'] : List Char).take 2 ++
                     ['X'] ++ (['a', 'b', ' ', 'c', 'd'] : List Char).drop 2 }
                 : TextBlock) :: [])
      { block_width := 300, line_wrap := true,
        text_blocks := [⟨7, 20, 20, ['a', 'b', ' ', 'c', 'd']⟩],
        current_text_item := some 7,
        current_text := ['a', 'b', ' ', 'c', 'd'],
        current_block_start_x := 20, current_block_start_y := 20,
        current_line_y := 20, insertion_index := 2,
        selection_start_index := none, selection_end_index := none,
        cursor_x := 20, cursor_y := 20, canvas_next_id := 8 } :=
  add_character_inserts (fun l => l.length) 1 ['X'] _ 7 [] []
    ⟨7, 20, 20, ['a', 'b', ' ', 'c', 'd']⟩ rfl (by decide) rfl rfl
    (by intro b' hb'; cases hb')

/-! ### C10: the cursor-index invariant `insertion_index ≤ len(current_text)` -/

def insertionInv (s : TextHandlerState) : Prop :=
  s.insertion_index ≤ s.current_text.length

instance (s : TextHandlerState) : Decidable (insertionInv s) :=
  inferInstanceAs (Decidable (_ ≤ _))

theorem insertionInv_create (x y : Int) (s : TextHandlerState) :
    insertionInv ((create_new_text_block x y s).1) := by
  simp [create_new_text_block, insertionInv]

theorem insertionInv_add_character (measure : List Char → Nat)
    (linespace : Nat) (char : List Char) (s : TextHandlerState)
    (h : insertionInv s) :
    insertionInv ((add_character measure linespace char s).1) := by
  unfold add_character
  split
  · rename_i hnone
    simp only [insertionInv, create_new_text_block] at h ⊢
    simp
  · simp only [insertionInv] at h ⊢
    simp only [List.length_append, List.length_take, List.length_drop]
    omega

theorem insertionInv_handle_backspace (measure : List Char → Nat)
    (linespace : Nat) (s : TextHandlerState) (h : insertionInv s) :
    insertionInv ((handle_backspace measure linespace s).1) := by
  unfold handle_backspace
  split
  · exact h
  · split
    · exact h
    · rename_i hguard
      simp only [insertionInv] at h ⊢
      simp only [List.length_append, List.length_take, List.length_drop]
      omega

theorem insertionInv_delete_selection (measure : List Char → Nat)
    (linespace : Nat) (a b : Nat) (s : TextHandlerState)
    (h : insertionInv s)
    (ha : a ≤ s.current_text.length) (hb : b ≤ s.current_text.length) :
    insertionInv ((delete_selection measure linespace
      (some a) (some b) s).1) := by
  unfold delete_selection
  split
  · exact h
  · simp only [insertionInv, update_cursor_after_text_change] at h ⊢
    simp only [Option.getD_some, List.length_append, List.length_take,
      List.length_drop]
    omega

theorem insertionInv_move_cursor (measure : List Char → Nat)
    (linespace : Nat) (direction : String) (shift_pressed : Bool)
    (s : TextHandlerState) (h : insertionInv s) :
    insertionInv ((move_cursor measure linespace direction
      shift_pressed s).1) := by
  unfold move_cursor
  split
  · exact h
  · simp only [insertionInv, update_cursor_after_text_change] at h ⊢
    set ls := wrap_text_to_width s.current_text s.block_width measure with hls
    have hne : ls ≠ [] := wrap_ne_nil _ _ _
    have hlen : 0 < ls.length := wrap_length_pos _ _ _
    have htot : sumLens ls + (ls.length - 1) = s.current_text.length := by
      have := wrap_sum s.current_text s.block_width measure
      rw [← hls] at this
      omega
    obtain ⟨hL, hc, hsum⟩ :=
      find_wrapped_position_spec ls s.insertion_index hne (by omega)
    split
    · split <;> omega
    · split
      · split <;> omega
      · split
        · -- Up
          split
          · rename_i hup
            have h1 : (find_wrapped_position ls s.insertion_index).1 - 1 <
                ls.length := by omega
            have h2 := find_actual_index_le ls
              ((find_wrapped_position ls s.insertion_index).1 - 1)
              (min (find_wrapped_position ls s.insertion_index).2
                (ls.getD ((find_wrapped_position ls s.insertion_index).1 - 1)
                  []).length)
              h1 (Nat.min_le_right _ _)
            omega
          · exact h
        · split
          · -- Down
            split
            · rename_i hdown
              have h1 : (find_wrapped_position ls s.insertion_index).1 + 1 <
                  ls.length := by omega
              have h2 := find_actual_index_le ls
                ((find_wrapped_position ls s.insertion_index).1 + 1)
                (min (find_wrapped_position ls s.insertion_index).2
                  (ls.getD ((find_wrapped_position ls s.insertion_index).1 + 1)
                    []).length)
                h1 (Nat.min_le_right _ _)
              omega
            · exact h
          · exact h

/-- C10: `0 ≤ insertion_index ≤ len(current_text)` (the lower bound is
inherent to `Nat`) holds after `create_new_text_block` and is preserved by
`add_character`, `handle_backspace`, `move_cursor` in every direction, and
`delete_selection` on in-bounds indices. -/
theorem insertion_index_invariant (measure : List Char → Nat)
    (linespace : Nat) :
    (∀ (x y : Int) (s : TextHandlerState),
      insertionInv ((create_new_text_block x y s).1)) ∧
    (∀ (char : List Char) (s : TextHandlerState), insertionInv s →
      insertionInv ((add_character measure linespace char s).1)) ∧
    (∀ (s : TextHandlerState), insertionInv s →
      insertionInv ((handle_backspace measure linespace s).1)) ∧
    (∀ (direction : String) (shift_pressed : Bool) (s : TextHandlerState),
      insertionInv s →
      insertionInv ((move_cursor measure linespace direction
        shift_pressed s).1)) ∧
    (∀ (a b : Nat) (s : TextHandlerState), insertionInv s →
      a ≤ s.current_text.length → b ≤ s.current_text.length →
      insertionInv ((delete_selection measure linespace
        (some a) (some b) s).1)) :=
  ⟨insertionInv_create,
   insertionInv_add_character measure linespace,
   insertionInv_handle_backspace measure linespace,
   insertionInv_move_cursor measure linespace,
   insertionInv_delete_selection measure linespace⟩

/-- A concrete handler state used by the invariant witness. -/
def sampleHandlerState : TextHandlerState :=
  { block_width := 25, line_wrap := true,
    text_blocks := [⟨7, 20, 20, ['a', 'b', ' ', 'c', 'd']⟩],
    current_text_item := some 7,
    current_text := ['a', 'b', ' ', 'c', 'd'],
    current_block_start_x := 20, current_block_start_y := 20,
    current_line_y := 20, insertion_index := 4,
    selection_start_index := none, selection_end_index := none,
    cursor_x := 20, cursor_y := 20, canvas_next_id := 8 }

/-- Witness for C10 on a concrete state, one conjunct per operation. -/
theorem insertion_index_invariant_witness :
    insertionInv ((create_new_text_block 5 5 sampleHandlerState).1) ∧
    insertionInv ((add_character (fun l => 10 * l.length) 1 ['X']
      sampleHandlerState).1) ∧
    insertionInv ((handle_backspace (fun l => 10 * l.length) 1
      sampleHandlerState).1) ∧
    insertionInv ((move_cursor (fun l => 10 * l.length) 1 "Up" false
      sampleHandlerState).1) ∧
    insertionInv ((delete_selection (fun l => 10 * l.length) 1
      (some 1) (some 3) sampleHandlerState).1) :=
  ⟨(insertion_index_invariant (fun l => 10 * l.length) 1).1 5 5
      sampleHandlerState,
   (insertion_index_invariant (fun l => 10 * l.length) 1).2.1 ['X']
      sampleHandlerState (by decide),
   (insertion_index_invariant (fun l => 10 * l.length) 1).2.2.1
      sampleHandlerState (by decide),
   (insertion_index_invariant (fun l => 10 * l.length) 1).2.2.2.1 "Up" false
      sampleHandlerState (by decide),
   (insertion_index_invariant (fun l => 10 * l.length) 1).2.2.2.2 1 3
      sampleHandlerState (by decide) (by decide) (by decide)⟩

/-! ### `FileOperations` (`file/operations.py`)

The Tk text widget is modelled as its character content between the
indices `"1.0"` and `"end-1c"` (the implicit trailing newline that `"end"`
would include is outside that range) together with its display-only
formatting tag ranges.  The filesystem is an association list from path to
written characters; a successful `open(..., 'w')`/`write` is total here
(the `except` branch covers OS-level failures only). -/

structure TextWidget where
  content : List Char
  tags : List (String × Nat × Nat)
  deriving Repr, DecidableEq

/-- `text_widget.get("1.0", "end-1c")`: the plain characters, no tags. -/
def TextWidget.getAll (w : TextWidget) : List Char := w.content

def FileSystem : Type := List (String × List Char)

def writeFile (fs : FileSystem) (path : String) (content : List Char) :
    FileSystem := (path, content) :: fs

def readFile (fs : FileSystem) (path : String) : Option (List Char) :=
  (List.find? (fun e => e.1 == path) fs).map (fun e => e.2)

structure FileOperationsState where
  current_file : Option String
  deriving Repr, DecidableEq

/-- The body of `FileOperations.save_file` once a path is known:
`content = self.text_widget.get("1.0", "end-1c")`, write it, return True. -/
def save_file_core (path : String) (st : FileOperationsState)
    (w : TextWidget) (fs : FileSystem) :
    Bool × FileOperationsState × TextWidget × FileSystem :=
  (true, st, w, writeFile fs path w.getAll)

/-- `FileOperations.save_file_as()` (lines 88-103); `dialog_path` is the
result of `filedialog.asksaveasfilename` (`none` = cancelled). -/
def save_file_as (dialog_path : Option String) (st : FileOperationsState)
    (w : TextWidget) (fs : FileSystem) :
    Bool × FileOperationsState × TextWidget × FileSystem :=
  match dialog_path with
  | none => (false, st, w, fs)
  | some path => save_file_core path { st with current_file := some path } w fs

/-- `FileOperations.save_file()` (lines 70-86). -/
def save_file (dialog_path : Option String) (st : FileOperationsState)
    (w : TextWidget) (fs : FileSystem) :
    Bool × FileOperationsState × TextWidget × FileSystem :=
  match st.current_file with
  | none => save_file_as dialog_path st w fs
  | some path => save_file_core path st w fs

/-- C1: with `current_file` set, `save_file` returns True, stores exactly
the widget's characters from `"1.0"` to `"end-1c"` at that path — the same
bytes whatever the formatting tags are — and leaves the widget (content
and tags) unchanged. -/
theorem save_file_writes_plain_text (dialog_path : Option String)
    (st : FileOperationsState) (w : TextWidget) (fs : FileSystem)
    (p : String) (hp : st.current_file = some p) :
    (save_file dialog_path st w fs).1 = true ∧
    readFile (save_file dialog_path st w fs).2.2.2 p = some w.content ∧
    (save_file dialog_path st w fs).2.2.1 = w ∧
    (∀ tags' : List (String × Nat × Nat),
      readFile (save_file dialog_path st { w with tags := tags' } fs).2.2.2 p
        = some w.content) := by
  refine ⟨?_, ?_, ?_, ?_⟩ <;>
    simp [save_file, hp, save_file_core, readFile, writeFile, TextWidget.getAll]

/-- Witness for C1: a widget with a bold tag saved to `doc.txt`. -/
theorem save_file_writes_plain_text_witness :
    (save_file none ⟨some "doc.txt"⟩ ⟨['h', 'i'], [("bold", 0, 1)]⟩ []).1 = true ∧
    readFile (save_file none ⟨some "doc.txt"⟩
        ⟨['h', 'i'], [("bold", 0, 1)]⟩ []).2.2.2 "doc.txt" = some ['h', 'i'] ∧
    (save_file none ⟨some "doc.txt"⟩ ⟨['h', 'i'], [("bold", 0, 1)]⟩ []).2.2.1
      = ⟨['h', 'i'], [("bold", 0, 1)]⟩ ∧
    (∀ tags' : List (String × Nat × Nat),
      readFile (save_file none ⟨some "doc.txt"⟩
          ⟨['h', 'i'], tags'⟩ []).2.2.2 "doc.txt" = some ['h', 'i']) :=
  save_file_writes_plain_text none ⟨some "doc.txt"⟩
    ⟨['h', 'i'], [("bold", 0, 1)]⟩ [] "doc.txt" rfl

/-! ### `SettingsManager` (`config/settings.py`)

JSON values as stored in the per-user config file.  `json.dump` followed
by `json.load` on a JSON-representable `dict` reproduces it (the stdlib's
contract), so the file is modelled as holding the stored value; the other
two file states are "missing" and "exists but does not parse". -/

inductive JValue where
  | null
  | jbool (b : Bool)
  | jnum (n : Int)
  | jstr (s : String)
  | jarr (items : List JValue)
  | jobj (fields : List (String × JValue))
  deriving Repr, BEq

inductive ConfigFile where
  | missing
  | invalid
  | stored (v : JValue)
  deriving Repr, BEq

/-- `SettingsManager.get_default_settings()` (lines 39-55). -/
def get_default_settings : JValue :=
  .jobj
    [("api_key", .jstr ""),
     ("shortcuts", .jobj
        [("transcribe", .jstr "f9"),
         ("system_audio", .jstr "f10"),
         ("cut", .jstr "ctrl+x"),
         ("copy", .jstr "ctrl+c"),
         ("paste", .jstr "ctrl+v"),
         ("save", .jstr "ctrl+s"),
         ("open", .jstr "ctrl+o"),
         ("new", .jstr "ctrl+n")]),
     ("system_audio", .jbool false),
     ("theme", .jstr "light")]

/-- `SettingsManager.load_settings()` (lines 18-27): if the file exists,
try `json.load`, returning the defaults on any parse failure (the bare
`except:`); if it does not exist, return the defaults.  Total by
construction — no branch raises. -/
def load_settings : ConfigFile → JValue
  | .missing => get_default_settings
  | .invalid => get_default_settings
  | .stored v => v

/-- `SettingsManager.save_settings()` (lines 29-37): `json.dump` the
settings dict over the config file and return True. -/
def save_settings (settings : JValue) (f : ConfigFile) : ConfigFile × Bool :=
  (.stored settings, true)

/-- C5: saving any JSON-serializable settings dictionary and loading it
back returns an equal dictionary, whatever the previous file state. -/
theorem save_load_round_trip (fields : List (String × JValue))
    (f : ConfigFile) :
    load_settings (save_settings (.jobj fields) f).1 = .jobj fields := rfl

/-- C6: `load_settings` is total, and on a missing or unparsable config
file it returns exactly `get_default_settings`. -/
theorem load_settings_defaults :
    load_settings .missing = get_default_settings ∧
    load_settings .invalid = get_default_settings ∧
    (∀ f : ConfigFile, load_settings f = get_default_settings ∨
      ∃ v, f = .stored v ∧ load_settings f = v) := by
  refine ⟨rfl, rfl, fun f => ?_⟩
  cases f with
  | missing => exact Or.inl rfl
  | invalid => exact Or.inl rfl
  | stored v => exact Or.inr ⟨v, rfl, rfl⟩

/-! ### `AudioRecorder` (`audio/recorder.py`)

The recording thread's effect is the sequence of chunks appended while the
key is held (`chunks`); status/callback strings and the PyAudio stream are
outside the state.  `transcribe_audio` writes `b''.join(audio_frames)` to
a temporary WAV and posts it — it never mutates `audio_frames`. -/

structure AudioRecorderState where
  is_recording : Bool
  audio_frames : List (List Nat)
  deriving Repr, DecidableEq

/-- `AudioRecorder.start_microphone_transcription()` (lines 42-60):
refuse without an API key or while already recording; otherwise set
`is_recording` and reset `audio_frames` to `[]`. -/
def start_microphone_transcription (api_key : String)
    (s : AudioRecorderState) : Bool × AudioRecorderState :=
  if api_key = "" then (false, s)
  else if s.is_recording then (false, s)
  else (true, { s with is_recording := true, audio_frames := [] })

/-- `AudioRecorder.transcribe_audio()` (lines 89-123): returns the bytes
written to the temporary WAV; `audio_frames` is left as it was. -/
def transcribe_audio (s : AudioRecorderState) :
    AudioRecorderState × List Nat :=
  (s, s.audio_frames.flatten)

/-- `AudioRecorder.record_microphone()` (lines 62-87): append a chunk per
loop iteration while the key is held, then (in the `finally`) stop and
either transcribe or report cancellation. -/
def record_microphone (chunks : List (List Nat)) (s : AudioRecorderState) :
    AudioRecorderState :=
  let s1 := { s with audio_frames := s.audio_frames ++ chunks }
  let s2 := { s1 with is_recording := false }
  if s2.audio_frames ≠ [] then (transcribe_audio s2).1 else s2

/-- One full press-and-hold session: `start_microphone_transcription`
followed by the recording thread's `record_microphone`. -/
def recording_session (api_key : String) (chunks : List (List Nat))
    (s : AudioRecorderState) : AudioRecorderState :=
  let r := start_microphone_transcription api_key s
  if r.1 then record_microphone chunks r.2 else r.2

/-- C2 (original claim, refuted): after a session with one recorded chunk
the buffer still holds that chunk — `transcribe_audio` never clears it. -/
theorem audio_frames_retained_counterexample :
    (recording_session "sk-key" [[0]] ⟨false, []⟩).audio_frames = [[0]] ∧
    ([[0]] : List (List Nat)) ≠ [] := by decide

/-- C2 (amended): after a session ends, `audio_frames` holds exactly the
chunks recorded in that session — empty after a cancelled (empty)
recording, and retained after transcription until the next session start
resets the buffer. -/
theorem audio_frames_after_session (api_key : String)
    (chunks : List (List Nat)) (s : AudioRecorderState)
    (hk : api_key ≠ "") (hr : s.is_recording = false) :
    (recording_session api_key chunks s).audio_frames = chunks := by
  unfold recording_session start_microphone_transcription record_microphone
    transcribe_audio
  simp [hk, hr]

/-- Witness for C2 (amended): two chunks survive the session verbatim. -/
theorem audio_frames_after_session_witness :
    (recording_session "sk-key" [[0], [1]] ⟨false, [[9]]⟩).audio_frames
      = [[0], [1]] :=
  audio_frames_after_session "sk-key" [[0], [1]] ⟨false, [[9]]⟩
    (by decide) rfl

/-! ### `TranscriptionService.transcribe_with_openai` (`audio/transcription.py`)

The open audio file is its byte content; the network is an oracle:
`none` stands for `requests.RequestException` during the POST, `some r`
for a delivered response, in which `jsonBody` is `response.json()`
(`none` = `json.JSONDecodeError`) and `text` the raw body.  The returned
`Nat` counts HTTP POST attempts.  Raised exceptions are the `Except`
error branch: `ValueError` everywhere the code raises one, and
`AttributeError` for `result.get(...)`/`.strip()` on a 200 response whose
JSON is not an object with a string (or absent) `text` field. -/

inductive PyError where
  | valueError (msg : String)
  | attributeError
  deriving Repr, BEq

structure HttpResponse where
  status : Nat
  jsonBody : Option JValue
  text : String

/-- Python `str.strip()`: drop leading and trailing whitespace. -/
def pyStrip (s : String) : String :=
  let l := s.toList.dropWhile Char.isWhitespace
  String.mk ((l.reverse.dropWhile Char.isWhitespace).reverse)

/-- `result.get('text', '')` followed by `.strip()`-ability:
ok for an object with a string or absent `text` field. -/
def jsonGetText : JValue → Except PyError String
  | .jobj fields =>
    match fields.lookup "text" with
    | some (.jstr s) => .ok s
    | some _ => .error .attributeError
    | none => .ok ""
  | _ => .error .attributeError

/-- `TranscriptionService.transcribe_with_openai(audio_file)`
(lines 18-92). -/
def transcribe_with_openai (api_key : String) (audio_file : List Nat)
    (net : Option HttpResponse) : Except PyError String × Nat :=
  if api_key = "" then (.error (.valueError "API key not configured"), 0)
  else
    let file_size := audio_file.length
    if file_size = 0 then (.error (.valueError "Audio file is empty"), 0)
    else
      let sample_data := audio_file.take 1024
      if sample_data.length < 44 then
        (.error (.valueError "Audio file is too small or corrupted"), 0)
      else
        match net with
        | none => (.error (.valueError "Network error"), 1)
        | some response =>
          if response.status ≠ 200 then
            (.error (.valueError "API Error"), 1)
          else
            match response.jsonBody with
            | some result => ((jsonGetText result).map pyStrip, 1)
            | none => (.ok (pyStrip response.text), 1)

theorem transcribe_post_count (api_key : String) (audio_file : List Nat)
    (net : Option HttpResponse) :
    (transcribe_with_openai api_key audio_file net).2 ≤ 1 := by
  simp only [transcribe_with_openai]
  repeat' split
  all_goals simp

theorem transcribe_valueError_iff (api_key : String) (audio_file : List Nat)
    (net : Option HttpResponse) :
    (∃ msg, (transcribe_with_openai api_key audio_file net).1 =
        .error (.valueError msg)) ↔
      (api_key = "" ∨ audio_file.length = 0 ∨ audio_file.length < 44 ∨
        net = none ∨ ∃ r, net = some r ∧ r.status ≠ 200) := by
  simp only [transcribe_with_openai]
  by_cases hk : api_key = ""
  · rw [if_pos hk]
    exact ⟨fun _ => Or.inl hk, fun _ => ⟨_, rfl⟩⟩
  · rw [if_neg hk]
    by_cases h0 : audio_file.length = 0
    · rw [if_pos h0]
      exact ⟨fun _ => Or.inr (Or.inl h0), fun _ => ⟨_, rfl⟩⟩
    · rw [if_neg h0]
      by_cases h44 : (audio_file.take 1024).length < 44
      · rw [if_pos h44]
        have h44a : audio_file.length < 44 := by
          rw [List.length_take] at h44; omega
        exact ⟨fun _ => Or.inr (Or.inr (Or.inl h44a)), fun _ => ⟨_, rfl⟩⟩
      · rw [if_neg h44]
        have h44a : ¬audio_file.length < 44 := by
          rw [List.length_take] at h44; omega
        cases net with
        | none =>
          exact ⟨fun _ => Or.inr (Or.inr (Or.inr (Or.inl rfl))),
                 fun _ => ⟨_, rfl⟩⟩
        | some r =>
          dsimp only
          by_cases hs : r.status = 200
          · rw [if_neg (by simp [hs])]
            constructor
            · rintro ⟨msg, hmsg⟩
              exfalso
              revert hmsg
              cases hj : r.jsonBody with
              | none => intro hmsg; simp at hmsg
              | some result =>
                cases result with
                | null => intro hmsg; simp [jsonGetText, Except.map] at hmsg
                | jbool b => intro hmsg; simp [jsonGetText, Except.map] at hmsg
                | jnum n => intro hmsg; simp [jsonGetText, Except.map] at hmsg
                | jstr s2 => intro hmsg; simp [jsonGetText, Except.map] at hmsg
                | jarr items => intro hmsg; simp [jsonGetText, Except.map] at hmsg
                | jobj fields =>
                  cases hlk : fields.lookup "text" with
                  | none =>
                    intro hmsg
                    simp [jsonGetText, hlk, Except.map] at hmsg
                  | some v =>
                    cases v <;> intro hmsg <;>
                      simp [jsonGetText, hlk, Except.map] at hmsg
            · intro hor
              rcases hor with h | h | h | h | ⟨r', hr', hst⟩
              · exact absurd h hk
              · exact absurd h h0
              · exact absurd h h44a
              · cases h
              · cases hr'
                exact absurd hs hst
          · rw [if_pos hs]
            constructor
            · intro _
              exact Or.inr (Or.inr (Or.inr (Or.inr ⟨r, rfl, hs⟩)))
            · intro _
              exact ⟨"API Error", rfl⟩

theorem transcribe_ok_on_200 (api_key : String) (audio_file : List Nat)
    (net : Option HttpResponse)
    (hk : api_key ≠ "") (h44 : ¬audio_file.length < 44) :
    ∀ r, net = some r → r.status = 200 →
      (∀ fields s, r.jsonBody = some (.jobj fields) →
        fields.lookup "text" = some (.jstr s) →
        (transcribe_with_openai api_key audio_file net).1 =
          .ok (pyStrip s)) ∧
      (∀ fields, r.jsonBody = some (.jobj fields) →
        fields.lookup "text" = none →
        (transcribe_with_openai api_key audio_file net).1 =
          .ok (pyStrip "")) ∧
      (r.jsonBody = none →
        (transcribe_with_openai api_key audio_file net).1 =
          .ok (pyStrip r.text)) := by
  intro r hr hs
  have h0 : ¬audio_file.length = 0 := by omega
  subst hr
  simp only [transcribe_with_openai]
  rw [if_neg hk, if_neg h0, if_neg (by rw [List.length_take]; omega)]
  rw [if_neg (by simp [hs])]
  refine ⟨?_, ?_, ?_⟩
  · intro fields s hfj hlk
    rw [hfj]
    simp [jsonGetText, hlk, Except.map]
  · intro fields hfj hlk
    rw [hfj]
    simp [jsonGetText, hlk, Except.map]
  · intro hfj
    rw [hfj]

/-- C3: at most one POST is attempted; a `ValueError` is raised exactly
when the key is unset, the file is empty or under 44 bytes, the POST
fails, or the status is not 200; and — once the key and size checks pass —
a 200 response yields the stripped `text` field of the JSON response
(\'\' when the field is absent, the stripped raw body when the JSON does
not parse). -/
theorem transcribe_with_openai_spec (api_key : String)
    (audio_file : List Nat) (net : Option HttpResponse) :
    (transcribe_with_openai api_key audio_file net).2 ≤ 1 ∧
    ((∃ msg, (transcribe_with_openai api_key audio_file net).1 =
        .error (.valueError msg)) ↔
      (api_key = "" ∨ audio_file.length = 0 ∨ audio_file.length < 44 ∨
        net = none ∨ ∃ r, net = some r ∧ r.status ≠ 200)) ∧
    (api_key ≠ "" → ¬audio_file.length < 44 →
      ∀ r, net = some r → r.status = 200 →
        (∀ fields s, r.jsonBody = some (.jobj fields) →
          fields.lookup "text" = some (.jstr s) →
          (transcribe_with_openai api_key audio_file net).1 =
            .ok (pyStrip s)) ∧
        (∀ fields, r.jsonBody = some (.jobj fields) →
          fields.lookup "text" = none →
          (transcribe_with_openai api_key audio_file net).1 =
            .ok (pyStrip "")) ∧
        (r.jsonBody = none →
          (transcribe_with_openai api_key audio_file net).1 =
            .ok (pyStrip r.text))) :=
  ⟨transcribe_post_count api_key audio_file net,
   transcribe_valueError_iff api_key audio_file net,
   fun hk h44 => transcribe_ok_on_200 api_key audio_file net hk h44⟩

/-- Witness for C3: a missing API key raises `ValueError`; a 200 response
whose body is not JSON returns the stripped raw body. -/
theorem transcribe_with_openai_spec_witness :
    (∃ msg, (transcribe_with_openai "" [] none).1 =
        .error (.valueError msg)) ∧
    (transcribe_with_openai "sk-k" (List.replicate 100 0)
        (some ⟨200, none, " hello "⟩)).1 = .ok (pyStrip " hello ") :=
  ⟨(transcribe_with_openai_spec "" [] none).2.1.mpr (Or.inl rfl),
   ((transcribe_with_openai_spec "sk-k" (List.replicate 100 0)
        (some ⟨200, none, " hello "⟩)).2.2 (by decide) (by decide)
      ⟨200, none, " hello "⟩ rfl rfl).2.2 rfl⟩

/-! ### `TextSearcher` (`text/search.py`)

The Tk text widget for search: its character content, the `INSERT` mark
as a character offset, and the `"search"` tag range.  `text_widget.search`
forward from `start` with `stopindex end` returns the first match
beginning at or after `start`; the wrapped call searches from `"1.0"` and
returns the first match beginning before `stopindex`.  `nocase` matching
lowercases both sides.  `replace_current`'s `delete` + untagged `insert`
leaves no `"search"` tag behind. -/

structure TkTextState where
  content : List Char
  insert : Nat
  searchTag : Option (Nat × Nat)
  deriving Repr, DecidableEq

def lowerList (l : List Char) : List Char := l.map Char.toLower

def tkSearchForward (needle hay : List Char) (start : Nat) : Option Nat :=
  (List.range (hay.length + 1)).find? fun p =>
    decide (start ≤ p) && needle.isPrefixOf (hay.drop p)

def tkSearchWrapped (needle hay : List Char) (stop : Nat) : Option Nat :=
  (List.range (hay.length + 1)).find? fun p =>
    decide (p < stop) && needle.isPrefixOf (hay.drop p)

/-- `TextSearcher.find_text(search_text, case_sensitive)` (lines 20-87)
as called from `replace_all` (`start_pos = None`, i.e. the `INSERT`
mark). -/
def find_text (search_text : List Char) (case_sensitive : Bool)
    (st : TkTextState) : Bool × TkTextState :=
  let st0 := { st with searchTag := none }
  if search_text = [] then (false, st0)
  else
    let start_pos := st0.insert
    let hay := if case_sensitive then st0.content else lowerList st0.content
    let needle := if case_sensitive then search_text
                  else lowerList search_text
    match tkSearchForward needle hay start_pos with
    | some found_pos =>
      (true, { st0 with
          searchTag := some (found_pos, found_pos + search_text.length)
          insert := found_pos + search_text.length })
    | none =>
      if start_pos ≠ 0 then
        match tkSearchWrapped needle hay start_pos with
        | some found_pos =>
          (true, { st0 with
              searchTag := some (found_pos, found_pos + search_text.length)
              insert := found_pos + search_text.length })
        | none => (false, st0)
      else (false, st0)

/-- Definitional unfolding of `find_text` at `case_sensitive = False`. -/
theorem find_text_nocase_eq (search_text : List Char) (st : TkTextState) :
    find_text search_text false st =
      (if search_text = [] then (false, { st with searchTag := none })
       else
         match tkSearchForward (lowerList search_text)
             (lowerList st.content) st.insert with
         | some p =>
           (true, { st with
               insert := p + search_text.length
               searchTag := some (p, p + search_text.length) })
         | none =>
           if st.insert ≠ 0 then
             match tkSearchWrapped (lowerList search_text)
                 (lowerList st.content) st.insert with
             | some p =>
               (true, { st with
                   insert := p + search_text.length
                   searchTag := some (p, p + search_text.length) })
             | none => (false, { st with searchTag := none })
           else (false, { st with searchTag := none })) := rfl

/-- `TextSearcher.replace_current(replace_text)` (lines 89-115). -/
def replace_current (replace_text : List Char) (st : TkTextState) :
    Bool × TkTextState :=
  match st.searchTag with
  | none => (false, st)
  | some (a, b) =>
    (true, { content := st.content.take a ++ replace_text ++ st.content.drop b
             insert := a + replace_text.length
             searchTag := none })

/-- The `while True` loop of `replace_all`, with explicit fuel; `none`
means the loop has not finished within `fuel` iterations. -/
def replace_all_loop (search_text replace_text : List Char)
    (case_sensitive : Bool) :
    Nat → TkTextState → Nat → Option (Nat × TkTextState)
  | 0, _, _ => none
  | fuel + 1, st, count =>
    let r1 := find_text search_text case_sensitive st
    if !r1.1 then some (count, r1.2)
    else
      let r2 := replace_current replace_text r1.2
      if !r2.1 then some (count, r2.2)
      else replace_all_loop search_text replace_text case_sensitive
        fuel r2.2 (count + 1)

/-- `TextSearcher.replace_all(search_text, replace_text, case_sensitive)`
(lines 117-146): set `INSERT` to `"1.0"` and loop. -/
def replace_all (search_text replace_text : List Char)
    (case_sensitive : Bool) (fuel : Nat) (st : TkTextState) :
    Option (Nat × TkTextState) :=
  replace_all_loop search_text replace_text case_sensitive fuel
    { st with insert := 0 } 0

/-- Documents all of whose characters are `'a'` and that are non-empty:
the invariant that keeps `replace_all ['a'] ['a','a']` spinning. -/
def allA (l : List Char) : Prop := l ≠ [] ∧ ∀ c ∈ l, c = 'a'

theorem isPrefixOf_single_a (l : List Char) (hne : l ≠ [])
    (hall : ∀ c ∈ l, c = 'a') : (['a'] : List Char).isPrefixOf l = true := by
  cases l with
  | nil => exact absurd rfl hne
  | cons c rest =>
    have hc : c = 'a' := hall c (by simp)
    subst hc
    simp [List.isPrefixOf]

theorem lowerList_allA (l : List Char) (hall : ∀ c ∈ l, c = 'a') :
    lowerList l = l := by
  unfold lowerList
  induction l with
  | nil => rfl
  | cons c rest ih =>
    have hc : c = 'a' := hall c (by simp)
    subst hc
    rw [List.map_cons, ih (fun c hc => hall c (by simp [hc]))]
    have hlow : Char.toLower 'a' = 'a' := by decide
    rw [hlow]

theorem find_text_a_succeeds (st : TkTextState) (h : allA st.content) :
    (find_text ['a'] false st).1 = true ∧
    ∃ a b, (find_text ['a'] false st).2.searchTag = some (a, b) ∧
      (find_text ['a'] false st).2.content = st.content := by
  obtain ⟨hne, hall⟩ := h
  have hlower : lowerList st.content = st.content := lowerList_allA _ hall
  have hlen : 0 < st.content.length := List.length_pos.mpr hne
  have hneedle : lowerList ['a'] = ['a'] := by decide
  rw [find_text_nocase_eq]
  rw [if_neg (by simp : ¬(['a'] : List Char) = [])]
  cases hfwd : tkSearchForward (lowerList ['a'])
      (lowerList st.content) st.insert with
  | some p => exact ⟨rfl, p, p + 1, rfl, rfl⟩
  | none =>
    -- the forward search failed, so `INSERT` cannot be 0 (position 0
    -- matches), and the wrapped search from the start succeeds at 0
    have hinsert : st.insert ≠ 0 := by
      intro h0
      have hpred : (fun p => decide (st.insert ≤ p) &&
          (['a'] : List Char).isPrefixOf ((lowerList st.content).drop p)) 0
          = true := by
        simp only [h0, List.drop_zero, hlower]
        simp [isPrefixOf_single_a st.content hne hall]
      have hmem : (0 : Nat) ∈
          List.range ((lowerList st.content).length + 1) := by
        simp [List.mem_range]
      have hsome : (List.find? (fun p => decide (st.insert ≤ p) &&
          (['a'] : List Char).isPrefixOf ((lowerList st.content).drop p))
          (List.range ((lowerList st.content).length + 1))).isSome :=
        List.find?_isSome.mpr ⟨0, hmem, hpred⟩
      rw [hneedle] at hfwd
      unfold tkSearchForward at hfwd
      rw [hfwd] at hsome
      cases hsome
    rw [if_pos hinsert]
    have hpred : (fun p => decide (p < st.insert) &&
        (['a'] : List Char).isPrefixOf ((lowerList st.content).drop p)) 0
        = true := by
      simp only [List.drop_zero, hlower]
      simp [Nat.pos_of_ne_zero hinsert,
        isPrefixOf_single_a st.content hne hall]
    have hmem : (0 : Nat) ∈
        List.range ((lowerList st.content).length + 1) := by
      simp [List.mem_range]
    have hsome : (List.find? (fun p => decide (p < st.insert) &&
        (['a'] : List Char).isPrefixOf ((lowerList st.content).drop p))
        (List.range ((lowerList st.content).length + 1))).isSome :=
      List.find?_isSome.mpr ⟨0, hmem, hpred⟩
    cases hwrap : tkSearchWrapped (lowerList ['a'])
        (lowerList st.content) st.insert with
    | some p => exact ⟨rfl, p, p + 1, rfl, rfl⟩
    | none =>
      rw [hneedle] at hwrap
      unfold tkSearchWrapped at hwrap
      rw [hwrap] at hsome
      cases hsome

theorem replace_current_aa (st : TkTextState) (a b : Nat)
    (htag : st.searchTag = some (a, b)) (h : allA st.content) :
    (replace_current ['a', 'a'] st).1 = true ∧
    allA (replace_current ['a', 'a'] st).2.content := by
  obtain ⟨hne, hall⟩ := h
  unfold replace_current
  rw [htag]
  refine ⟨rfl, ?_, ?_⟩
  · apply List.ne_nil_of_length_pos
    simp only [List.length_append, List.length_cons, List.length_nil]
    omega
  · intro c hc
    simp only [List.append_assoc, List.mem_append] at hc
    rcases hc with hc | hc | hc
    · exact hall c (List.take_subset a st.content hc)
    · simpa using hc
    · exact hall c (List.drop_subset b st.content hc)

theorem replace_all_loop_a_aa_spins (fuel : Nat) :
    ∀ (st : TkTextState) (count : Nat), allA st.content →
      replace_all_loop ['a'] ['a', 'a'] false fuel st count = none := by
  induction fuel with
  | zero => intro st count _; rfl
  | succ n ih =>
    intro st count h
    obtain ⟨hfound, a, b, htag, hcontent⟩ := find_text_a_succeeds st h
    have h1 : allA (find_text ['a'] false st).2.content := by
      rw [hcontent]; exact h
    obtain ⟨hrep, hinv⟩ :=
      replace_current_aa (find_text ['a'] false st).2 a b htag h1
    simp only [replace_all_loop, hfound, Bool.not_true, Bool.false_eq_true,
      if_false, hrep]
    exact ih _ _ hinv

/-- C8 (refuted): with document `"a"`, `search_text = "a"` and
`replace_text = "aa"`, `replace_all` never leaves its loop — after each
replacement the wrap-around search finds an occurrence inside the text
just inserted, for any number of iterations. -/
theorem replace_all_a_aa_diverges (fuel : Nat) :
    replace_all ['a'] ['a', 'a'] false fuel ⟨['a'], 0, none⟩ = none := by
  unfold replace_all
  exact replace_all_loop_a_aa_spins fuel _ 0 (by constructor <;> simp)

end Texxteditor
